import Mathlib

/-!
Verification of the TagStudio tag-search ranking engine.

This file gives a shallow embedding of the ranking/filtering logic of
`TagSearchPanel` (`src/tagstudio/src/qt/modals/tag_search.py`) and proves
properties of it.

The embedded functions mirror the source:
* `update_tags` models `TagSearchPanel.update_tags`: the backing search result
  list is a parameter (`tag_results`, the value of `self.lib.search_tags(name=query)`),
  the display-name resolver `dn` models `self.lib.tag_display_name`, and the
  exclusion list models `self.exclude`.  Python's stable `list.sort(key=...)`
  is modelled by `List.insertionSort` with the corresponding `≤` on keys
  (all stable sorts of a list under a total preorder agree, and
  `insertionSort` is stable).
* Python strings are sequences of code points; they are modelled through the
  `String.data` list-of-`Char` view, with lexicographic comparison (`strLe`),
  `str.lower` (`strLower`), `str.startswith` (`strStartsWith`) and truthiness
  (`strIsEmpty`) defined on that view.
* `on_return` models `TagSearchPanel.on_return` as a pure function from the
  panel state and entered text to the list of effects it performs.
-/

namespace TagStudio

/-- Python `a <= b` on strings: lexicographic comparison of code points
(the negation of `b < a`, matching the comparison a stable sort performs). -/
def strLe (a b : String) : Prop := ¬ b.data < a.data

instance : DecidableRel strLe := fun _ _ => instDecidableNot

/-- Python `a < b` on strings: strict lexicographic comparison of code points. -/
def strLt (a b : String) : Prop := a.data < b.data

instance : DecidableRel strLt := fun a b => inferInstanceAs (Decidable (a.data < b.data))

/-- Python `s.lower()`, applied code point by code point. -/
def strLower (s : String) : String := ⟨s.data.map Char.toLower⟩

/-- Python `s.startswith(p)`. -/
def strStartsWith (s p : String) : Bool := p.data.isPrefixOf s.data

/-- Python falsiness of a string: `not s` holds exactly when `s` is empty. -/
def strIsEmpty (s : String) : Bool := s.data.isEmpty

/-- A tag: an integer identifier and the raw stored name (`tag.name` in the
source; the display name is resolved separately via the library). -/
structure Tag where
  id : Nat
  name : String
deriving DecidableEq, Repr

/-- `query and tag.name.lower().startswith(query.lower())` — the Bucket-A test.
`query` is falsy in Python when it is `None` or the empty string. -/
def isPrefixMatch (query : Option String) (t : Tag) : Bool :=
  match query with
  | none => false
  | some q => !strIsEmpty q && strStartsWith (strLower t.name) (strLower q)

/-- The filtering loop of `update_tags`: skip excluded tags, route prefix
matches to `results_1` (first component) and the rest to `results_2`. -/
def partitionTags (exclude : List Nat) (query : Option String) :
    List Tag → List Tag × List Tag
  | [] => ([], [])
  | t :: ts =>
    let rest := partitionTags exclude query ts
    if t.id ∈ exclude then rest
    else if isPrefixMatch query t then (t :: rest.1, rest.2)
    else (rest.1, t :: rest.2)

/-- `results.sort(key=lambda tag: self.lib.tag_display_name(tag.id))`. -/
def sortByDisplayName (dn : Nat → String) (l : List Tag) : List Tag :=
  l.insertionSort (fun a b => strLe (dn a.id) (dn b.id))

/-- `results.sort(key=lambda tag: len(self.lib.tag_display_name(tag.id)))`. -/
def sortByDisplayNameLength (dn : Nat → String) (l : List Tag) : List Tag :=
  l.insertionSort (fun a b => (dn a.id).data.length ≤ (dn b.id).data.length)

/-- `results_1` after both of its (stable) sorts have run. -/
def results1Sorted (dn : Nat → String) (exclude : List Nat) (query : Option String)
    (tag_results : List Tag) : List Tag :=
  sortByDisplayNameLength dn (sortByDisplayName dn (partitionTags exclude query tag_results).1)

/-- `results_2` after its sort by display name. -/
def results2Sorted (dn : Nat → String) (exclude : List Nat) (query : Option String)
    (tag_results : List Tag) : List Tag :=
  sortByDisplayName dn (partitionTags exclude query tag_results).2

/-- The observable outcome of one `update_tags` call: the rows laid out in the
scroll area (`ranked`), the stored `self.first_tag_id`, and — when the create
branch is taken — the query passed to `build_create_tag_button`. -/
structure UpdateResult where
  ranked : List Tag
  first_tag_id : Option Nat
  create_button_query : Option (Option String)
deriving DecidableEq, Repr

/-- The ranking core of `TagSearchPanel.update_tags`. -/
def update_tags (dn : Nat → String) (exclude : List Nat) (query : Option String)
    (tag_results : List Tag) : UpdateResult :=
  if 0 < tag_results.length then
    let results_1 := results1Sorted dn exclude query tag_results
    let results_2 := results2Sorted dn exclude query tag_results
    { ranked := results_1 ++ results_2
      first_tag_id :=
        if 0 < results_1.length then results_1.head?.map Tag.id
        else tag_results.head?.map Tag.id
      create_button_query := none }
  else
    { ranked := [], first_tag_id := none, create_button_query := some query }

/-- The panel fields read or written by the modelled methods
(`self.lib` is represented by the display-name resolver it provides). -/
structure Panel where
  dn : Nat → String
  exclude : List Nat
  is_tag_chooser : Bool
  first_tag_id : Option Nat

/-- `update_tags` as a state transformer on the panel: it recomputes the rows
and overwrites `self.first_tag_id`, reading no other panel state. -/
def panelUpdateTags (p : Panel) (query : Option String) (tag_results : List Tag) :
    Panel × UpdateResult :=
  let r := update_tags p.dn p.exclude query tag_results
  ({ p with first_tag_id := r.first_tag_id }, r)

/-- Externally visible actions performed by `on_return`. -/
inductive Effect where
  | tagChosenEmit (id : Nat)
  | setSearchText (s : String)
  | recomputeTags (query : Option String)
  | openCreateTagModal (name : String)
  | focusSearchField
  | hideParent
deriving DecidableEq, Repr

/-- `TagSearchPanel.on_return` as the list of effects it performs, in order.
`update_tags()` with no argument is `recomputeTags none`. -/
def on_return (p : Panel) (text : String) : List Effect :=
  if !strIsEmpty text then
    match p.first_tag_id with
    | some tid =>
      (if p.is_tag_chooser then [Effect.tagChosenEmit tid] else []) ++
        [Effect.setSearchText "", Effect.recomputeTags none]
    | none => [Effect.openCreateTagModal text]
  else
    [Effect.focusSearchField, Effect.hideParent]

/-- Modelled from the spec: the single compound comparator of design note §9,
"a single comparator with compound key (length, name)" — primary key
display-name length ascending, secondary key display name ascending. -/
def tagLex (dn : Nat → String) (a b : Tag) : Prop :=
  (dn a.id).data.length < (dn b.id).data.length ∨
    ((dn a.id).data.length = (dn b.id).data.length ∧ strLe (dn a.id) (dn b.id))

instance (dn : Nat → String) : DecidableRel (tagLex dn) := fun a b => by
  unfold tagLex; infer_instance

/-- The combined comparison realised by a stable `R2`-sort of an `R1`-sorted
list: strictly `R2`-smaller elements first, `R1` deciding `R2`-ties. -/
def lexComp {α : Type} (R1 R2 : α → α → Prop) (a b : α) : Prop :=
  R2 a b ∧ (¬ R2 b a ∨ R1 a b)

instance {α : Type} (R1 R2 : α → α → Prop) [DecidableRel R1] [DecidableRel R2] :
    DecidableRel (lexComp R1 R2) := fun a b => by
  unfold lexComp; infer_instance

/-- Concrete display-name resolver used in counterexamples: tag 1 is shown as
`"b"`, every other tag as `"a"`. -/
def dnTwo : Nat → String := fun i => if i = 1 then "b" else "a"

/-- Concrete display-name resolver showing every tag as `"a"`. -/
def dnConst : Nat → String := fun _ => "a"

/-- Concrete display-name resolver: tag 1 is shown as `"aa"`, every other tag
as `"a"`. -/
def dnW : Nat → String := fun i => if i = 1 then "aa" else "a"

/-! ## Order facts about the string comparison -/

theorem strLe_iff (a b : String) : strLe a b ↔ a.data ≤ b.data := by
  unfold strLe; exact not_lt

theorem strLe_trans (a b c : String) (h1 : strLe a b) (h2 : strLe b c) : strLe a c :=
  (strLe_iff a c).mpr (le_trans ((strLe_iff a b).mp h1) ((strLe_iff b c).mp h2))

theorem strLe_total (a b : String) : strLe a b ∨ strLe b a := by
  rcases le_total a.data b.data with h | h
  · exact Or.inl ((strLe_iff a b).mpr h)
  · exact Or.inr ((strLe_iff b a).mpr h)

theorem not_strLe_iff (a b : String) : ¬ strLe a b ↔ strLt b a := by
  unfold strLe strLt; exact not_not

theorem strLe_antisymm (a b : String) (h1 : strLe a b) (h2 : strLe b a) : a.data = b.data :=
  le_antisymm ((strLe_iff a b).mp h1) ((strLe_iff b a).mp h2)

/-! ## Composition of two stable sorts

A stable sort by `R2` run after a stable sort by `R1` equals a single stable
sort by the lexicographic combination `lexComp R1 R2`.  This is the generic
fact behind the two consecutive `results_1.sort(...)` calls in the source. -/

section StableSortComposition

variable {α : Type} (R1 R2 : α → α → Prop) [DecidableRel R1] [DecidableRel R2]

/-- Inserting an element `R1`-below a whole list inserts at the same spot
under `R2` and under `lexComp R1 R2`. -/
theorem orderedInsert_lexComp_eq (a : α) :
    ∀ (u : List α), (∀ x ∈ u, R1 a x) →
      u.orderedInsert R2 a = u.orderedInsert (lexComp R1 R2) a
  | [], _ => rfl
  | c :: v, h => by
    have hac : R1 a c := h c (List.mem_cons_self c v)
    by_cases h2 : R2 a c
    · simp only [List.orderedInsert, if_pos h2,
        if_pos (show lexComp R1 R2 a c from ⟨h2, Or.inr hac⟩)]
    · have h3 : ¬ lexComp R1 R2 a c := fun hl => h2 hl.1
      simp only [List.orderedInsert, if_neg h2, if_neg h3]
      rw [orderedInsert_lexComp_eq a v (fun x hx => h x (List.mem_cons_of_mem c hx))]

/-- Two `orderedInsert`s — `a` under the combined order, `b` under `R2` —
commute when `a` does not `R1`-precede `b`. -/
theorem orderedInsert_comm (a b : α)
    (htr2 : ∀ x y z, R2 x y → R2 y z → R2 x z)
    (hto2 : ∀ x y, R2 x y ∨ R2 y x)
    (hab : ¬ R1 a b) :
    ∀ u : List α,
      (u.orderedInsert (lexComp R1 R2) a).orderedInsert R2 b
        = (u.orderedInsert R2 b).orderedInsert (lexComp R1 R2) a
  | [] => by
    by_cases hba : R2 b a
    · have hnl : ¬ lexComp R1 R2 a b := by
        rintro ⟨_, h2 | h2⟩
        · exact h2 hba
        · exact hab h2
      simp only [List.orderedInsert, if_pos hba, if_neg hnl]
    · have hab2 : R2 a b := (hto2 a b).resolve_right hba
      have hl : lexComp R1 R2 a b := ⟨hab2, Or.inl hba⟩
      simp only [List.orderedInsert, if_neg hba, if_pos hl]
  | c :: v => by
    by_cases hP : lexComp R1 R2 a c <;> by_cases hQ : R2 b c
    · by_cases hS : R2 b a
      · have hnl : ¬ lexComp R1 R2 a b := by
          rintro ⟨_, h2 | h2⟩
          · exact h2 hS
          · exact hab h2
        simp only [List.orderedInsert, if_pos hP, if_pos hQ, if_pos hS, if_neg hnl]
      · have hab2 : R2 a b := (hto2 a b).resolve_right hS
        have hl : lexComp R1 R2 a b := ⟨hab2, Or.inl hS⟩
        simp only [List.orderedInsert, if_pos hP, if_pos hQ, if_neg hS, if_pos hl]
    · have hS : ¬ R2 b a := fun hS => hQ (htr2 b a c hS hP.1)
      simp only [List.orderedInsert, if_pos hP, if_neg hQ, if_neg hS]
    · have hnl : ¬ lexComp R1 R2 a b := by
        rintro ⟨h1, h2 | h2⟩
        · have hac : R2 a c := htr2 a b c h1 hQ
          have h3 : ¬ (¬ R2 c a ∨ R1 a c) := fun hor => hP ⟨hac, hor⟩
          push_neg at h3
          exact h2 (htr2 b c a hQ h3.1)
        · exact hab h2
      simp only [List.orderedInsert, if_neg hP, if_pos hQ, if_neg hnl]
    · simp only [List.orderedInsert, if_neg hP, if_neg hQ]
      rw [orderedInsert_comm a b htr2 hto2 hab v]

/-- Stable-sorting by `R2` after inserting `a` into an `R1`-sorted list
inserts `a` by the combined order into the `R2`-sorted list. -/
theorem insertionSort_orderedInsert (a : α)
    (htr1 : ∀ x y z, R1 x y → R1 y z → R1 x z)
    (htr2 : ∀ x y z, R2 x y → R2 y z → R2 x z)
    (hto2 : ∀ x y, R2 x y ∨ R2 y x) :
    ∀ (s : List α), s.Sorted R1 →
      (s.orderedInsert R1 a).insertionSort R2
        = (s.insertionSort R2).orderedInsert (lexComp R1 R2) a
  | [], _ => rfl
  | b :: t, hs => by
    by_cases h1 : R1 a b
    · rw [List.orderedInsert_of_le R1 t h1]
      have hall : ∀ x ∈ (b :: t).insertionSort R2, R1 a x := by
        intro x hx
        rcases List.mem_cons.mp ((List.mem_insertionSort R2).mp hx) with rfl | hx'
        · exact h1
        · exact htr1 a b x h1 (List.rel_of_sorted_cons hs x hx')
      calc ((a :: b :: t).insertionSort R2)
          = ((b :: t).insertionSort R2).orderedInsert R2 a := rfl
        _ = ((b :: t).insertionSort R2).orderedInsert (lexComp R1 R2) a :=
            orderedInsert_lexComp_eq R1 R2 a _ hall
    · have heq : (b :: t).orderedInsert R1 a = b :: t.orderedInsert R1 a := by
        simp only [List.orderedInsert, if_neg h1]
      rw [heq]
      calc ((b :: t.orderedInsert R1 a).insertionSort R2)
          = ((t.orderedInsert R1 a).insertionSort R2).orderedInsert R2 b := rfl
        _ = ((t.insertionSort R2).orderedInsert (lexComp R1 R2) a).orderedInsert R2 b := by
            rw [insertionSort_orderedInsert a htr1 htr2 hto2 t hs.of_cons]
        _ = ((t.insertionSort R2).orderedInsert R2 b).orderedInsert (lexComp R1 R2) a :=
            orderedInsert_comm R1 R2 a b htr2 hto2 h1 _
        _ = ((b :: t).insertionSort R2).orderedInsert (lexComp R1 R2) a := rfl

/-- Composition of stable sorts: sorting stably by `R1` and then stably by
`R2` equals one stable sort by the lexicographic combination. -/
theorem insertionSort_insertionSort
    (htr1 : ∀ x y z, R1 x y → R1 y z → R1 x z)
    (hto1 : ∀ x y, R1 x y ∨ R1 y x)
    (htr2 : ∀ x y z, R2 x y → R2 y z → R2 x z)
    (hto2 : ∀ x y, R2 x y ∨ R2 y x) :
    ∀ l : List α, (l.insertionSort R1).insertionSort R2 = l.insertionSort (lexComp R1 R2)
  | [] => rfl
  | a :: l => by
    have hs : (l.insertionSort R1).Sorted R1 := by
      haveI h1 : IsTotal α R1 := ⟨hto1⟩
      haveI h2 : IsTrans α R1 := ⟨htr1⟩
      exact List.sorted_insertionSort R1 l
    calc ((a :: l).insertionSort R1).insertionSort R2
        = ((l.insertionSort R1).orderedInsert R1 a).insertionSort R2 := rfl
      _ = ((l.insertionSort R1).insertionSort R2).orderedInsert (lexComp R1 R2) a :=
          insertionSort_orderedInsert R1 R2 a htr1 htr2 hto2 _ hs
      _ = (l.insertionSort (lexComp R1 R2)).orderedInsert (lexComp R1 R2) a := by
          rw [insertionSort_insertionSort htr1 hto1 htr2 hto2 l]
      _ = (a :: l).insertionSort (lexComp R1 R2) := rfl

end StableSortComposition

/-- `orderedInsert` only depends on the comparison up to propositional
equivalence. -/
theorem orderedInsert_congr {α : Type} {r r' : α → α → Prop}
    [DecidableRel r] [DecidableRel r'] (h : ∀ x y, r x y ↔ r' x y) (a : α) :
    ∀ l : List α, l.orderedInsert r a = l.orderedInsert r' a
  | [] => rfl
  | b :: l => by
    by_cases hb : r a b
    · simp only [List.orderedInsert, if_pos hb, if_pos ((h a b).mp hb)]
    · simp only [List.orderedInsert, if_neg hb, if_neg (fun h' => hb ((h a b).mpr h'))]
      rw [orderedInsert_congr h a l]

/-- `insertionSort` only depends on the comparison up to propositional
equivalence. -/
theorem insertionSort_congr {α : Type} {r r' : α → α → Prop}
    [DecidableRel r] [DecidableRel r'] (h : ∀ x y, r x y ↔ r' x y) :
    ∀ l : List α, l.insertionSort r = l.insertionSort r'
  | [] => rfl
  | a :: l =>
    calc ((a :: l).insertionSort r)
        = (l.insertionSort r).orderedInsert r a := rfl
      _ = (l.insertionSort r').orderedInsert r a := by rw [insertionSort_congr h l]
      _ = (l.insertionSort r').orderedInsert r' a := orderedInsert_congr h a _
      _ = (a :: l).insertionSort r' := rfl

/-! ## Tag-level consequences -/

theorem lexComp_tagLex_iff (dn : Nat → String) (a b : Tag) :
    lexComp (fun x y : Tag => strLe (dn x.id) (dn y.id))
      (fun x y : Tag => (dn x.id).data.length ≤ (dn y.id).data.length) a b
      ↔ tagLex dn a b := by
  unfold lexComp tagLex
  constructor
  · rintro ⟨hle, h2 | h2⟩
    · exact Or.inl (not_le.mp h2)
    · rcases lt_or_eq_of_le hle with h | h
      · exact Or.inl h
      · exact Or.inr ⟨h, h2⟩
  · rintro (h | ⟨heq, hle⟩)
    · exact ⟨le_of_lt h, Or.inl (not_le.mpr h)⟩
    · exact ⟨le_of_eq heq, Or.inr hle⟩

theorem tagLex_trans (dn : Nat → String) :
    ∀ a b c : Tag, tagLex dn a b → tagLex dn b c → tagLex dn a c := by
  rintro a b c (h | ⟨e1, s1⟩) (h' | ⟨e2, s2⟩)
  · exact Or.inl (lt_trans h h')
  · exact Or.inl (e2 ▸ h)
  · exact Or.inl (e1 ▸ h')
  · exact Or.inr ⟨e1.trans e2, strLe_trans _ _ _ s1 s2⟩

theorem tagLex_total (dn : Nat → String) :
    ∀ a b : Tag, tagLex dn a b ∨ tagLex dn b a := by
  intro a b
  rcases Nat.lt_trichotomy (dn a.id).data.length (dn b.id).data.length with h | h | h
  · exact Or.inl (Or.inl h)
  · rcases strLe_total (dn a.id) (dn b.id) with hs | hs
    · exact Or.inl (Or.inr ⟨h, hs⟩)
    · exact Or.inr (Or.inr ⟨h.symm, hs⟩)
  · exact Or.inr (Or.inl h)

/-- The two sequential stable sorts of the source — by display name, then by
display-name length — coincide with a single stable sort by the compound
comparator, on any tag list. -/
theorem twoPass_eq_lex (dn : Nat → String) (l : List Tag) :
    sortByDisplayNameLength dn (sortByDisplayName dn l) = l.insertionSort (tagLex dn) := by
  unfold sortByDisplayName sortByDisplayNameLength
  rw [insertionSort_insertionSort
    (fun x y : Tag => strLe (dn x.id) (dn y.id))
    (fun x y : Tag => (dn x.id).data.length ≤ (dn y.id).data.length)
    (fun x y z h1 h2 => strLe_trans (dn x.id) (dn y.id) (dn z.id) h1 h2)
    (fun x y => strLe_total (dn x.id) (dn y.id))
    (fun _ _ _ h1 h2 => Nat.le_trans h1 h2)
    (fun x y => Nat.le_total (dn x.id).data.length (dn y.id).data.length)]
  exact insertionSort_congr (lexComp_tagLex_iff dn) l

/-- The two sequential stable sorts applied to `results_1` coincide with a
single stable sort by the compound comparator. -/
theorem results1Sorted_eq_lex (dn : Nat → String) (ex : List Nat) (q : Option String)
    (l : List Tag) :
    results1Sorted dn ex q l = ((partitionTags ex q l).1).insertionSort (tagLex dn) := by
  unfold results1Sorted
  exact twoPass_eq_lex dn _

/-- The filtering loop is the pair of filters over the input list. -/
theorem partitionTags_eq (ex : List Nat) (q : Option String) :
    ∀ l : List Tag, partitionTags ex q l =
      (l.filter (fun t => !decide (t.id ∈ ex) && isPrefixMatch q t),
       l.filter (fun t => !decide (t.id ∈ ex) && !isPrefixMatch q t))
  | [] => rfl
  | t :: ts => by
    have ih := partitionTags_eq ex q ts
    by_cases h1 : t.id ∈ ex
    · simp [partitionTags, ih, List.filter_cons, h1]
    · by_cases h2 : isPrefixMatch q t = true
      · simp [partitionTags, ih, List.filter_cons, h1, h2]
      · simp [partitionTags, ih, List.filter_cons, h1, h2]

theorem results1Sorted_perm (dn : Nat → String) (ex : List Nat) (q : Option String)
    (l : List Tag) :
    List.Perm (results1Sorted dn ex q l)
      (l.filter (fun t => !decide (t.id ∈ ex) && isPrefixMatch q t)) := by
  unfold results1Sorted sortByDisplayName sortByDisplayNameLength
  refine ((List.perm_insertionSort _ _).trans (List.perm_insertionSort _ _)).trans ?_
  rw [partitionTags_eq]

theorem results2Sorted_perm (dn : Nat → String) (ex : List Nat) (q : Option String)
    (l : List Tag) :
    List.Perm (results2Sorted dn ex q l)
      (l.filter (fun t => !decide (t.id ∈ ex) && !isPrefixMatch q t)) := by
  unfold results2Sorted sortByDisplayName
  refine (List.perm_insertionSort _ _).trans ?_
  rw [partitionTags_eq]

theorem results1Sorted_sorted (dn : Nat → String) (ex : List Nat) (q : Option String)
    (l : List Tag) : (results1Sorted dn ex q l).Sorted (tagLex dn) := by
  rw [results1Sorted_eq_lex]
  haveI h1 : IsTotal Tag (tagLex dn) := ⟨tagLex_total dn⟩
  haveI h2 : IsTrans Tag (tagLex dn) := ⟨tagLex_trans dn⟩
  exact List.sorted_insertionSort _ _

theorem results2Sorted_sorted (dn : Nat → String) (ex : List Nat) (q : Option String)
    (l : List Tag) :
    (results2Sorted dn ex q l).Sorted (fun a b : Tag => strLe (dn a.id) (dn b.id)) := by
  unfold results2Sorted sortByDisplayName
  haveI h1 : IsTotal Tag (fun a b : Tag => strLe (dn a.id) (dn b.id)) :=
    ⟨fun a b => strLe_total (dn a.id) (dn b.id)⟩
  haveI h2 : IsTrans Tag (fun a b : Tag => strLe (dn a.id) (dn b.id)) :=
    ⟨fun a b c hab hbc => strLe_trans (dn a.id) (dn b.id) (dn c.id) hab hbc⟩
  exact List.sorted_insertionSort _ _

/-- Unfolding of `update_tags` on a non-empty backing result list. -/
theorem update_tags_pos (dn : Nat → String) (ex : List Nat) (q : Option String)
    (l : List Tag) (h : 0 < l.length) :
    update_tags dn ex q l =
      { ranked := results1Sorted dn ex q l ++ results2Sorted dn ex q l
        first_tag_id :=
          if 0 < (results1Sorted dn ex q l).length
          then (results1Sorted dn ex q l).head?.map Tag.id
          else l.head?.map Tag.id
        create_button_query := none } := by
  unfold update_tags
  rw [if_pos h]

/-! ## Claims -/

/-- C1, counterexample: with backing results `[Tag 1 "b", Tag 2 "a"]`, no
query and nothing excluded, the displayed list is sorted by display name and
starts with tag 2, yet `first_tag_id` is set from the raw backing list head,
tag 1 — so the First-Match Pointer is not the rank-0 element of the displayed
result list even though a result is displayed. -/
theorem claim1_counterexample :
    (update_tags dnTwo [] none [⟨1, "b"⟩, ⟨2, "a"⟩]).ranked.head?.map Tag.id = some 2 ∧
    (update_tags dnTwo [] none [⟨1, "b"⟩, ⟨2, "a"⟩]).first_tag_id = some 1 ∧
    (update_tags dnTwo [] none [⟨1, "b"⟩, ⟨2, "a"⟩]).first_tag_id ≠
      (update_tags dnTwo [] none [⟨1, "b"⟩, ⟨2, "a"⟩]).ranked.head?.map Tag.id := by
  decide

/-- C1 (amended): `first_tag_id` equals the identifier of the rank-0 element
of the displayed list whenever `results_1` is non-empty; when `results_1` is
empty it equals the identifier of the head of the raw backing list (which can
differ from the displayed rank-0 element); and it is `None` exactly when the
backing search returned nothing. -/
theorem claim1_first_match_amended (dn : Nat → String) (ex : List Nat)
    (q : Option String) (l : List Tag) :
    (l = [] → (update_tags dn ex q l).first_tag_id = none) ∧
    (0 < (results1Sorted dn ex q l).length →
      (update_tags dn ex q l).first_tag_id
        = (update_tags dn ex q l).ranked.head?.map Tag.id) ∧
    (results1Sorted dn ex q l = [] →
      (update_tags dn ex q l).first_tag_id = l.head?.map Tag.id) := by
  refine ⟨?_, ?_, ?_⟩
  · rintro rfl; rfl
  · intro h
    have hl : 0 < l.length := by
      rcases l with _ | ⟨t, ts⟩
      · simp [results1Sorted, sortByDisplayName, sortByDisplayNameLength, partitionTags] at h
      · simp
    rw [update_tags_pos dn ex q l hl]
    dsimp only
    rw [if_pos h]
    rcases hr : results1Sorted dn ex q l with _ | ⟨a, t⟩
    · rw [hr] at h; simp at h
    · simp
  · intro h
    rcases Nat.eq_zero_or_pos l.length with hl | hl
    · have hnil : l = [] := List.length_eq_zero.mp hl
      subst hnil; rfl
    · rw [update_tags_pos dn ex q l hl]
      dsimp only
      rw [h]
      simp

/-- C1, witness for the amended statement: at the counterexample input the
third branch applies and yields the head of the raw backing list. -/
theorem claim1_witness :
    (update_tags dnTwo [] none [⟨1, "b"⟩, ⟨2, "a"⟩]).first_tag_id
      = ([⟨1, "b"⟩, ⟨2, "a"⟩] : List Tag).head?.map Tag.id :=
  (claim1_first_match_amended dnTwo [] none [⟨1, "b"⟩, ⟨2, "a"⟩]).2.2 (by decide)

/-- C2: at the failing input — backing search returns the single tag 1 while
tag 1 is excluded — the code produces an empty ranked list but sets the
First-Match Pointer to the excluded tag's identifier instead of `None`,
contradicting the claim (and the spec's `firstMatch = None`). -/
theorem claim2_all_excluded_behavior :
    (update_tags dnConst [1] (some "a") [⟨1, "a"⟩]).ranked = [] ∧
    (update_tags dnConst [1] (some "a") [⟨1, "a"⟩]).first_tag_id = some 1 := by
  decide

/-- C7: whenever the backing search returns the empty list, the ranked output
is empty, the First-Match Pointer is `None`, and the create-tag button is
built with the query as proposed name (no error path exists). -/
theorem claim7_empty_search (dn : Nat → String) (ex : List Nat) (q : Option String) :
    update_tags dn ex q [] =
      { ranked := [], first_tag_id := none, create_button_query := some q } :=
  rfl

/-- C8: a single stable sort with the compound key (display-name length,
display name) produces exactly the list produced by the source's two
sequential stable sorts, for every tag list and display-name resolver. -/
theorem claim8_compound_key_refinement (dn : Nat → String) (l : List Tag) :
    sortByDisplayNameLength dn (sortByDisplayName dn l) = l.insertionSort (tagLex dn) :=
  twoPass_eq_lex dn l

/-- C9: the ranking computation is deterministic and pure: two panels that
agree on the library resolver and exclusion list — regardless of any other
panel state such as a previously stored first-match pointer — produce the
same output for the same inputs, and re-running `update_tags` on the updated
panel reproduces the same output. -/
theorem claim9_deterministic (p p' : Panel) (q : Option String) (l : List Tag)
    (hdn : p.dn = p'.dn) (hex : p.exclude = p'.exclude) :
    (panelUpdateTags p q l).2 = (panelUpdateTags p' q l).2 ∧
    (panelUpdateTags (panelUpdateTags p q l).1 q l).2 = (panelUpdateTags p q l).2 := by
  obtain ⟨dn1, ex1, c1, f1⟩ := p
  obtain ⟨dn2, ex2, c2, f2⟩ := p'
  cases hdn
  cases hex
  exact ⟨rfl, rfl⟩

/-- C9, witness: two concrete panels differing in chooser flag and stored
first-match pointer produce identical outputs, and the recomputation is
idempotent. -/
theorem claim9_witness :
    (panelUpdateTags ⟨dnConst, [], true, some 7⟩ none [⟨1, "a"⟩]).2
        = (panelUpdateTags ⟨dnConst, [], false, none⟩ none [⟨1, "a"⟩]).2 ∧
    (panelUpdateTags (panelUpdateTags ⟨dnConst, [], true, some 7⟩ none [⟨1, "a"⟩]).1
        none [⟨1, "a"⟩]).2
      = (panelUpdateTags ⟨dnConst, [], true, some 7⟩ none [⟨1, "a"⟩]).2 :=
  claim9_deterministic ⟨dnConst, [], true, some 7⟩ ⟨dnConst, [], false, none⟩
    none [⟨1, "a"⟩] rfl rfl

/-- C10: on confirmation with non-empty text and a set First-Match Pointer,
a panel built with `is_tag_chooser = False` emits no `tag_chosen` event, yet
still clears the query text and recomputes the tag list; the event is emitted
in this branch exactly for `is_tag_chooser = True`, and only with the stored
pointer value. -/
theorem claim10_on_return (p : Panel) (text : String) (tid : Nat)
    (htext : strIsEmpty text = false) (hf : p.first_tag_id = some tid) :
    (p.is_tag_chooser = false → ∀ i, Effect.tagChosenEmit i ∉ on_return p text) ∧
    Effect.setSearchText "" ∈ on_return p text ∧
    Effect.recomputeTags none ∈ on_return p text ∧
    (∀ i, Effect.tagChosenEmit i ∈ on_return p text →
      p.is_tag_chooser = true ∧ i = tid) := by
  unfold on_return
  rw [htext, hf]
  cases hc : p.is_tag_chooser <;> simp

/-- C10, witness: a concrete non-chooser panel with a stored pointer emits no
selection event on return. -/
theorem claim10_witness :
    Effect.setSearchText "" ∈ on_return ⟨dnConst, [], false, some 5⟩ "x" :=
  (claim10_on_return ⟨dnConst, [], false, some 5⟩ "x" 5 (by decide) rfl).2.1

/-- `getD` agrees with `get` at an index inside the list. -/
theorem getD_of_lt {α : Type} (l : List α) (n : Nat) (d : α) (h : n < l.length) :
    l.getD n d = l.get ⟨n, h⟩ := by
  rw [List.getD_eq_getElem?_getD, List.getElem?_eq_getElem h]
  simp

/-- C3: no tag whose identifier is in the exclusion list appears in the
ranked output of `update_tags`. -/
theorem claim3_no_excluded (dn : Nat → String) (ex : List Nat) (q : Option String)
    (l : List Tag) (t : Tag) (ht : t ∈ (update_tags dn ex q l).ranked) :
    ¬ t.id ∈ ex := by
  rcases Nat.eq_zero_or_pos l.length with hl | hl
  · have hnil : l = [] := List.length_eq_zero.mp hl
    subst hnil
    have hr : (update_tags dn ex q []).ranked = [] := rfl
    rw [hr] at ht
    exact absurd ht (List.not_mem_nil t)
  · rw [update_tags_pos dn ex q l hl] at ht
    dsimp only at ht
    rcases List.mem_append.mp ht with h | h
    · have h2 := List.of_mem_filter ((results1Sorted_perm dn ex q l).mem_iff.mp h)
      intro hmem
      simp [hmem] at h2
    · have h2 := List.of_mem_filter ((results2Sorted_perm dn ex q l).mem_iff.mp h)
      intro hmem
      simp [hmem] at h2

/-- C3, witness: tag 2 is in the displayed output when only tag 1 is
excluded, and its identifier is indeed not in the exclusion list. -/
theorem claim3_witness : ¬ ((⟨2, "b"⟩ : Tag).id ∈ [1]) :=
  claim3_no_excluded dnConst [1] none [⟨1, "a"⟩, ⟨2, "b"⟩] ⟨2, "b"⟩ (by decide)

/-- C4: within the leading segment (`results_1` after its two sequential
stable sorts), a tag with a strictly shorter display name precedes any tag
with a longer one, and among equal-length display names the lexicographically
smaller display name precedes the larger. -/
theorem claim4_bucketA_order (dn : Nat → String) (ex : List Nat) (q : Option String)
    (l : List Tag) (i j : Nat)
    (hi : i < (results1Sorted dn ex q l).length)
    (hj : j < (results1Sorted dn ex q l).length) :
    ((dn ((results1Sorted dn ex q l).getD i ⟨0, ""⟩).id).data.length
        < (dn ((results1Sorted dn ex q l).getD j ⟨0, ""⟩).id).data.length → i < j) ∧
    ((dn ((results1Sorted dn ex q l).getD i ⟨0, ""⟩).id).data.length
        = (dn ((results1Sorted dn ex q l).getD j ⟨0, ""⟩).id).data.length →
      strLt (dn ((results1Sorted dn ex q l).getD i ⟨0, ""⟩).id)
          (dn ((results1Sorted dn ex q l).getD j ⟨0, ""⟩).id) → i < j) := by
  have hs := results1Sorted_sorted dn ex q l
  rw [getD_of_lt (results1Sorted dn ex q l) i ⟨0, ""⟩ hi,
      getD_of_lt (results1Sorted dn ex q l) j ⟨0, ""⟩ hj]
  constructor
  · intro hlen
    by_contra hij
    push_neg at hij
    rcases lt_or_eq_of_le hij with hji | hji
    · have hrel := hs.rel_get_of_lt (show (⟨j, hj⟩ : Fin _) < ⟨i, hi⟩ from hji)
      rcases hrel with h | ⟨h, _⟩ <;> omega
    · subst hji
      exact absurd hlen (lt_irrefl _)
  · intro hlen hstr
    by_contra hij
    push_neg at hij
    rcases lt_or_eq_of_le hij with hji | hji
    · have hrel := hs.rel_get_of_lt (show (⟨j, hj⟩ : Fin _) < ⟨i, hi⟩ from hji)
      rcases hrel with h | ⟨_, h⟩
      · omega
      · exact h hstr
    · subst hji
      exact absurd hstr (lt_irrefl _)

/-- C4, witness: at a concrete bucket with display names `"a"` and `"aa"`,
the theorem applies with both index bounds discharged, including the
strictly-shorter-name antecedent. -/
theorem claim4_witness : 0 < 1 :=
  (claim4_bucketA_order dnW [] (some "a") [⟨1, "aa"⟩, ⟨2, "a"⟩] 0 1
    (by decide) (by decide)).1 (by decide)

/-- C5: for a non-empty query the ranked output is the concatenation of the
sorted Bucket A — exactly the non-excluded tags whose lowercased name starts
with the lowercased query — followed by the sorted Bucket B — exactly the
other non-excluded tags; hence every leading-segment tag appears before every
non-leading-segment tag. -/
theorem claim5_partition (dn : Nat → String) (ex : List Nat) (l : List Tag)
    (s : String) (hs : strIsEmpty s = false) :
    (update_tags dn ex (some s) l).ranked
        = results1Sorted dn ex (some s) l ++ results2Sorted dn ex (some s) l ∧
    List.Perm (results1Sorted dn ex (some s) l)
      (l.filter (fun t => !decide (t.id ∈ ex)
        && strStartsWith (strLower t.name) (strLower s))) ∧
    List.Perm (results2Sorted dn ex (some s) l)
      (l.filter (fun t => !decide (t.id ∈ ex)
        && !strStartsWith (strLower t.name) (strLower s))) := by
  have hpred : ∀ t : Tag,
      isPrefixMatch (some s) t = strStartsWith (strLower t.name) (strLower s) := by
    intro t
    simp [isPrefixMatch, hs]
  refine ⟨?_, ?_, ?_⟩
  · rcases Nat.eq_zero_or_pos l.length with hl | hl
    · have hnil : l = [] := List.length_eq_zero.mp hl
      subst hnil
      rfl
    · rw [update_tags_pos dn ex (some s) l hl]
  · refine (results1Sorted_perm dn ex (some s) l).trans ?_
    have heq := List.filter_congr
      (fun (t : Tag) _ => by rw [hpred t] :
        ∀ t ∈ l, (!decide (t.id ∈ ex) && isPrefixMatch (some s) t)
          = (!decide (t.id ∈ ex) && strStartsWith (strLower t.name) (strLower s)))
    rw [heq]
  · refine (results2Sorted_perm dn ex (some s) l).trans ?_
    have heq := List.filter_congr
      (fun (t : Tag) _ => by rw [hpred t] :
        ∀ t ∈ l, (!decide (t.id ∈ ex) && !isPrefixMatch (some s) t)
          = (!decide (t.id ∈ ex) && !strStartsWith (strLower t.name) (strLower s)))
    rw [heq]

/-- C5, witness: concrete non-empty query instantiating the concatenation
conjunct. -/
theorem claim5_witness :
    (update_tags dnConst [] (some "a") [⟨1, "a"⟩]).ranked
      = results1Sorted dnConst [] (some "a") [⟨1, "a"⟩]
        ++ results2Sorted dnConst [] (some "a") [⟨1, "a"⟩] :=
  (claim5_partition dnConst [] [⟨1, "a"⟩] "a" (by decide)).1

/-- C6: for an absent or empty query Bucket A stays empty and the ranked
output is all non-excluded backing results sorted by display name only. -/
theorem claim6_empty_query (dn : Nat → String) (ex : List Nat) (q : Option String)
    (l : List Tag) (hq : q = none ∨ q = some "") :
    (update_tags dn ex q l).ranked
        = (l.filter (fun t => !decide (t.id ∈ ex))).insertionSort
            (fun a b : Tag => strLe (dn a.id) (dn b.id)) ∧
    List.Sorted (fun a b : Tag => strLe (dn a.id) (dn b.id))
      (update_tags dn ex q l).ranked := by
  have hpm : ∀ t : Tag, isPrefixMatch q t = false := by
    rcases hq with rfl | rfl
    · intro t
      rfl
    · intro t
      have h0 : strIsEmpty "" = true := by decide
      simp [isPrefixMatch, h0]
  have hpart : partitionTags ex q l = ([], l.filter (fun t => !decide (t.id ∈ ex))) := by
    rw [partitionTags_eq]
    refine Prod.ext ?_ ?_
    · dsimp only
      rw [List.filter_eq_nil_iff]
      intro t _
      rw [hpm t]
      simp
    · dsimp only
      exact List.filter_congr (fun t _ => by rw [hpm t]; simp)
  have hr : (update_tags dn ex q l).ranked
      = (l.filter (fun t => !decide (t.id ∈ ex))).insertionSort
          (fun a b : Tag => strLe (dn a.id) (dn b.id)) := by
    rcases Nat.eq_zero_or_pos l.length with hl | hl
    · have hnil : l = [] := List.length_eq_zero.mp hl
      subst hnil
      rfl
    · rw [update_tags_pos dn ex q l hl]
      dsimp only
      unfold results1Sorted results2Sorted sortByDisplayName sortByDisplayNameLength
      rw [hpart]
      simp
  refine ⟨hr, ?_⟩
  rw [hr]
  haveI h1 : IsTotal Tag (fun a b : Tag => strLe (dn a.id) (dn b.id)) :=
    ⟨fun a b => strLe_total (dn a.id) (dn b.id)⟩
  haveI h2 : IsTrans Tag (fun a b : Tag => strLe (dn a.id) (dn b.id)) :=
    ⟨fun a b c hab hbc => strLe_trans (dn a.id) (dn b.id) (dn c.id) hab hbc⟩
  exact List.sorted_insertionSort _ _

/-- C6, witness: concrete empty query instantiating the name-only sort
conjunct. -/
theorem claim6_witness :
    (update_tags dnTwo [] (some "") [⟨1, "b"⟩, ⟨2, "a"⟩]).ranked
      = (([⟨1, "b"⟩, ⟨2, "a"⟩] : List Tag).filter
          (fun t => !decide (t.id ∈ ([] : List Nat)))).insertionSort
          (fun a b : Tag => strLe (dnTwo a.id) (dnTwo b.id)) :=
  (claim6_empty_query dnTwo [] (some "") [⟨1, "b"⟩, ⟨2, "a"⟩] (Or.inr rfl)).1

end TagStudio
